import Mathlib

/-!
Verification of the snapshot retention tool (aws_snapshot_manager.py).

The script's pure core is embedded shallowly:

* dates are records of year/month/day naturals; Python's
  `date - timedelta(days=n)` becomes iterated calendar predecessor;
* `date.isoformat()` becomes rendering to a zero-padded character list;
* `datetime.strptime(s, '%Y-%m-%dT%H:%M:%S.%fZ')` becomes an explicit
  character-list reader returning `Option`; an unhandled ValueError is
  modelled as the `Except.error` branch;
* the AWS calls are external collaborators: deletion outcomes are an
  oracle `Snapshot → Bool`, and the syslog side channel is dropped;
* Python string comparison (code-point lexicographic) is an explicit
  structural comparison on the underlying character lists.
-/

/-- Calendar date, mirroring Python's `datetime.date` fields. -/
structure Date where
  year : Nat
  month : Nat
  day : Nat
deriving DecidableEq, Repr

/-- Gregorian leap-year rule, as implemented by Python's `datetime`/`calendar`. -/
def isLeap (y : Nat) : Bool :=
  (y % 4 == 0 && y % 100 != 0) || y % 400 == 0

/-- True month length of month `m` in year `y` (the rule Python's `datetime`
uses to validate and to do date arithmetic). -/
def daysInMonth (y m : Nat) : Nat :=
  if m = 2 then (if isLeap y then 29 else 28)
  else if m = 4 ∨ m = 6 ∨ m = 9 ∨ m = 11 then 30
  else 31

/-- Python's `calendar.mdays` table: month lengths with February fixed at 28,
leap years ignored (index 0 is a placeholder).  This is the table the script
consults at line 101. -/
def mdaysList : List Nat := [0, 31, 28, 31, 30, 31, 30, 31, 31, 30, 31, 30, 31]

/-- Lookup in `calendar.mdays`. -/
def mdays (m : Nat) : Nat := mdaysList.getD m 0

/-- Calendar predecessor of a date (one step of `date - timedelta(days=1)`). -/
def prevDay (d : Date) : Date :=
  if 1 < d.day then ⟨d.year, d.month, d.day - 1⟩
  else if 1 < d.month then ⟨d.year, d.month - 1, daysInMonth d.year (d.month - 1)⟩
  else ⟨d.year - 1, 12, 31⟩

/-- Python's `today - datetime.timedelta(days=n)` as `n` predecessor steps. -/
def subDays (d : Date) : Nat → Date
  | 0 => d
  | n + 1 => prevDay (subDays d n)

/-- Strict chronological order on dates. -/
def dateLt (a b : Date) : Prop :=
  a.year < b.year ∨
    (a.year = b.year ∧ (a.month < b.month ∨ (a.month = b.month ∧ a.day < b.day)))

instance (a b : Date) : Decidable (dateLt a b) := by
  unfold dateLt; infer_instance

/-- Reflexive chronological order on dates. -/
def dateLe (a b : Date) : Prop := dateLt a b ∨ a = b

instance (a b : Date) : Decidable (dateLe a b) := by
  unfold dateLe; infer_instance

/-- Field ranges guaranteed for every Python `datetime.date` value. -/
def ValidDate (d : Date) : Prop :=
  1 ≤ d.year ∧ d.year ≤ 9999 ∧ 1 ≤ d.month ∧ d.month ≤ 12 ∧
    1 ≤ d.day ∧ d.day ≤ daysInMonth d.year d.month

instance (d : Date) : Decidable (ValidDate d) := by
  unfold ValidDate; infer_instance

/-- ASCII digit character of a value below ten. -/
def digitChar : Nat → Char
  | 0 => '0' | 1 => '1' | 2 => '2' | 3 => '3' | 4 => '4'
  | 5 => '5' | 6 => '6' | 7 => '7' | 8 => '8' | 9 => '9'
  | _ => '*'

/-- Zero-padded width-`k` decimal rendering of `n` (as in Python's
format specifiers 04d and 02d used by `date.isoformat`). -/
def padNum : Nat → Nat → List Char
  | 0, _ => []
  | k + 1, n => digitChar (n / 10 ^ k % 10) :: padNum k n

/-- Characters of `date.isoformat()`: YYYY-MM-DD, zero padded. -/
def isoDateChars (d : Date) : List Char :=
  padNum 4 d.year ++ '-' :: (padNum 2 d.month ++ '-' :: padNum 2 d.day)

/-- Python's `date.isoformat()`. -/
def isoDate (d : Date) : String := ⟨isoDateChars d⟩

/-- Timestamp in the provider's fixed textual layout
YYYY-MM-DDTHH:MM:SS.ffffffZ, with the fractional digits kept verbatim. -/
structure Timestamp where
  year : Nat
  month : Nat
  day : Nat
  hour : Nat
  minute : Nat
  second : Nat
  frac : List Char
deriving DecidableEq, Repr

/-- Date part of a timestamp. -/
def tsDate (ts : Timestamp) : Date := ⟨ts.year, ts.month, ts.day⟩

/-- Characters of the canonical rendering of a timestamp in the AWS
start_time layout. -/
def fmtTSChars (ts : Timestamp) : List Char :=
  isoDateChars (tsDate ts) ++
    'T' :: (padNum 2 ts.hour ++ ':' :: (padNum 2 ts.minute ++
      ':' :: (padNum 2 ts.second ++ '.' :: (ts.frac ++ ['Z']))))

/-- Canonical start_time string of a timestamp. -/
def fmtTS (ts : Timestamp) : String := ⟨fmtTSChars ts⟩

/-- Ranges under which a timestamp denotes a real instant (what
Python's `datetime` constructor accepts, plus a well-formed fraction). -/
def ValidTS (ts : Timestamp) : Prop :=
  1 ≤ ts.year ∧ ts.year ≤ 9999 ∧ 1 ≤ ts.month ∧ ts.month ≤ 12 ∧
    1 ≤ ts.day ∧ ts.day ≤ daysInMonth ts.year ts.month ∧
    ts.hour ≤ 23 ∧ ts.minute ≤ 59 ∧ ts.second ≤ 59 ∧
    ts.frac ≠ [] ∧ ts.frac.length ≤ 6 ∧ ∀ c ∈ ts.frac, c.isDigit

instance (ts : Timestamp) : Decidable (ValidTS ts) := by
  unfold ValidTS; infer_instance

/-- Parsed value of `datetime.strptime`: a naive datetime. -/
structure DT where
  year : Nat
  month : Nat
  day : Nat
  hour : Nat
  minute : Nat
  second : Nat
  usec : Nat
deriving DecidableEq, Repr

/-- Reader for a fixed count of digits (the %Y field matches exactly
four digits). -/
def readFixed : Nat → Nat → List Char → Option (Nat × List Char)
  | 0, acc, cs => some (acc, cs)
  | k + 1, acc, c :: cs =>
      if c.isDigit then readFixed k (acc * 10 + (c.toNat - 48)) cs else none
  | _ + 1, _, [] => none

/-- Greedy reader for one or two digits (the %m, %d, %H, %M, %S fields;
their regex alternation plus constructor range checks is extensionally
the same as reading greedily and range-checking afterwards). -/
def read12 : List Char → Option (Nat × List Char)
  | c :: cs =>
      if c.isDigit then
        match cs with
        | c2 :: cs2 =>
            if c2.isDigit then some ((c.toNat - 48) * 10 + (c2.toNat - 48), cs2)
            else some (c.toNat - 48, cs)
        | [] => some (c.toNat - 48, [])
      else none
  | [] => none

/-- Greedy continuation reader consuming at most `fuel` further digits,
also counting how many digits it consumed. -/
def readMore : Nat → Nat → Nat → List Char → Nat × Nat × List Char
  | 0, acc, n, cs => (acc, n, cs)
  | _ + 1, acc, n, [] => (acc, n, [])
  | f + 1, acc, n, c :: cs =>
      if c.isDigit then readMore f (acc * 10 + (c.toNat - 48)) (n + 1) cs
      else (acc, n, c :: cs)

/-- Reader for the %f field: one to six digits, greedy; the matched
digits are right-padded with zeros to a microsecond count, as
`_strptime` does. -/
def readFrac : List Char → Option (Nat × List Char)
  | c :: cs =>
      if c.isDigit then
        let (v, n, rest) := readMore 5 (c.toNat - 48) 1 cs
        some (v * 10 ^ (6 - n), rest)
      else none
  | [] => none

/-- Reader for one literal character of the format string. -/
def lit (c : Char) : List Char → Option (List Char)
  | x :: cs => if x = c then some cs else none
  | [] => none

/-- Reader for the %Y-%m-%dT portion of the format. -/
def readDatePart (cs : List Char) : Option (Nat × Nat × Nat × List Char) := do
  let (y, cs) ← readFixed 4 0 cs
  let cs ← lit '-' cs
  let (mo, cs) ← read12 cs
  let cs ← lit '-' cs
  let (dy, cs) ← read12 cs
  let cs ← lit 'T' cs
  some (y, mo, dy, cs)

/-- Reader for the %H:%M:%S. portion of the format. -/
def readTimePart (cs : List Char) : Option (Nat × Nat × Nat × List Char) := do
  let (h, cs) ← read12 cs
  let cs ← lit ':' cs
  let (mi, cs) ← read12 cs
  let cs ← lit ':' cs
  let (sec, cs) ← read12 cs
  let cs ← lit '.' cs
  some (h, mi, sec, cs)

/-- Reader for the %fZ tail of the format, which must exhaust the input
(an unconverted remainder is a ValueError). -/
def readTailPart (cs : List Char) : Option Nat := do
  let (us, cs) ← readFrac cs
  let cs ← lit 'Z' cs
  match cs with
  | [] => some us
  | _ :: _ => none

/-- Embedding of `datetime.strptime(s, '%Y-%m-%dT%H:%M:%S.%fZ')` on
character lists: on success the parsed datetime, on ValueError `none`.
Digits are the ASCII digits (the provider's fixed layout uses no
other numerals).  The final range conditions are those the `datetime`
constructor enforces. -/
def parseChars (cs : List Char) : Option DT := do
  let (y, mo, dy, cs) ← readDatePart cs
  let (h, mi, sec, cs) ← readTimePart cs
  let us ← readTailPart cs
  if 1 ≤ y ∧ y ≤ 9999 ∧ 1 ≤ mo ∧ mo ≤ 12 ∧ 1 ≤ dy ∧ dy ≤ daysInMonth y mo ∧
      h ≤ 23 ∧ mi ≤ 59 ∧ sec ≤ 59 then
    some ⟨y, mo, dy, h, mi, sec, us⟩
  else none

/-- Parse of a snapshot's start_time string. -/
def parseStartTime (s : String) : Option DT := parseChars s.data

/-- Snapshot record: the three provider-supplied fields the script reads. -/
structure Snapshot where
  snap_id : String
  description : String
  start_time : String
deriving DecidableEq, Repr

/-- Characters of the pattern literal passed to `re.match` at line 85. -/
def patChars : List Char := "Created by aws_snapshot_manager.py".data

/-- Match of one regex atom of that pattern: every character is a
literal except the dot, which matches any character other than a
newline. -/
def atomMatch (p c : Char) : Bool :=
  if p = '.' then c != '\n' else p == c

/-- Start-anchored match of a literal-plus-dot pattern against a string,
as `re.match` performs it. -/
def reMatchLit : List Char → List Char → Bool
  | [], _ => true
  | _ :: _, [] => false
  | p :: ps, c :: cs => atomMatch p c && reMatchLit ps cs

/-- Condition of the description filter: `re.match(description, i.description)`
is truthy. -/
def dotTagMatch (s : String) : Bool := reMatchLit patChars s.data

/-- Exact start-anchored comparison of a character list against another. -/
def listStart : List Char → List Char → Bool
  | [], _ => true
  | _ :: _, [] => false
  | p :: ps, c :: cs => p == c && listStart ps cs

/-- Exact-prefix selection rule as the specification words it: the
description begins with the managed-tag string itself. -/
def litTagStart (s : String) : Bool := listStart patChars s.data

/-- Embedding of `get_snapshot_list`: keep, in order, the snapshots whose
description matches the tag pattern. -/
def get_snapshot_list (all_snapshots : List Snapshot) : List Snapshot :=
  all_snapshots.filter (fun i => dotTagMatch i.description)

/-- Error value standing for the ValueError that `strptime` raises on a
malformed start_time. -/
structure ParseErr where
  bad : String
deriving DecidableEq, Repr

/-- Code-point lexicographic less-or-equal on character lists: the
comparison Python performs for s1 <= s2 on strings (first differing
character decides; a proper initial segment is smaller). -/
def charListLe : List Char → List Char → Bool
  | [], _ => true
  | _ :: _, [] => false
  | a :: as, b :: bs => if a = b then charListLe as bs else decide (a < b)

/-- Python string less-or-equal. -/
def strLe (s1 s2 : String) : Bool := charListLe s1.data s2.data

/-- Expiry test of line 101: the raw start_time string is at most the
cutoff's ISO date string, and the parsed day differs from the
`calendar.mdays` entry of the parsed month. -/
def expireCond (cutoff : String) (st : String) (dt : DT) : Bool :=
  strLe st cutoff && decide (dt.day ≠ mdays dt.month)

/-- Expiry decision for one snapshot as a pure function of the snapshot
(false when the timestamp does not parse; that case never reaches the
test, the loop raises first). -/
def condOf (cutoff : String) (s : Snapshot) : Bool :=
  match parseStartTime s.start_time with
  | none => false
  | some dt => expireCond cutoff s.start_time dt

/-- Classification loop of lines 98-103.  Snapshots are processed in
order; the first unparseable start_time raises.  On success the pair is
(kept snapshots, expired snapshots), both in input order; the kept list
records the snapshots the loop leaves untouched. -/
def collectExpired (cutoff : String) :
    List Snapshot → Except ParseErr (List Snapshot × List Snapshot)
  | [] => .ok ([], [])
  | s :: rest =>
    match parseStartTime s.start_time with
    | none => .error ⟨s.start_time⟩
    | some dt =>
      match collectExpired cutoff rest with
      | .error e => .error e
      | .ok (kp, ex) =>
        if expireCond cutoff s.start_time dt then .ok (kp, s :: ex)
        else .ok (s :: kp, ex)

/-- Trace of the deletion loop: which snapshots had a delete call issued,
and which of those calls failed. -/
structure DeleteTrace where
  attempted : List Snapshot
  failed : List Snapshot
deriving DecidableEq, Repr

/-- Embedding of `delete_snapshots` (lines 119-125): a delete call is
issued for every member in order; a failing call (oracle `ok` false) is
caught, logged and the loop continues.  The Python function body ends
without a return statement. -/
def delete_snapshots (ok : Snapshot → Bool) : List Snapshot → DeleteTrace
  | [] => ⟨[], []⟩
  | s :: rest =>
    let tr := delete_snapshots ok rest
    ⟨s :: tr.attempted, if ok s then tr.failed else s :: tr.failed⟩

/-- Python value returned by `manage_snapshot_inventory`: `None` from the
delete branch (a bare `delete_snapshots` call), or an int. -/
inductive PyVal where
  | none : PyVal
  | int : Int → PyVal
deriving DecidableEq, Repr

/-- Truth of "the value is an integer status". -/
def isIntStatus : PyVal → Bool
  | .none => false
  | .int _ => true

/-- Observable outcome of one retention pass. -/
structure RunOutcome where
  keep : List Snapshot
  expire : List Snapshot
  attempted : List Snapshot
  failed : List Snapshot
  result : PyVal
deriving DecidableEq, Repr

/-- Embedding of `manage_snapshot_inventory` (lines 91-117).  `today` is
the reference date (`datetime.date.today()` in the script), `ok` the
deletion oracle.  The branch chain on the expired count is kept as
written: greater than zero, equal to zero, and the defensive negative
branch returning status 1. -/
def manage_snapshot_inventory (ok : Snapshot → Bool) (today : Date)
    (archival_snapshot_list : List Snapshot) : Except ParseErr RunOutcome :=
  match collectExpired (isoDate (subDays today 7)) archival_snapshot_list with
  | .error e => .error e
  | .ok (kp, expired_snapshots) =>
    if 0 < (expired_snapshots.length : Int) then
      .ok ⟨kp, expired_snapshots, (delete_snapshots ok expired_snapshots).attempted,
        (delete_snapshots ok expired_snapshots).failed, PyVal.none⟩
    else if (expired_snapshots.length : Int) = 0 then
      .ok ⟨kp, expired_snapshots, [], [], PyVal.int 0⟩
    else
      .ok ⟨kp, expired_snapshots, [], [], PyVal.int 1⟩

/-- Truth of "the run raised no exception". -/
def isOkRun : Except ParseErr RunOutcome → Bool
  | .ok _ => true
  | .error _ => false

/-- Month-end as the specification defines it: the date's day equals the
true last day of its own month, leap years included. -/
def specIsMonthEnd (d : Date) : Bool := d.day = daysInMonth d.year d.month

/-! Concrete data used to evaluate the embedding on specific runs. -/

/-- Deletion oracle under which every delete call succeeds. -/
def okAll : Snapshot → Bool := fun _ => true

/-- Snapshot whose description differs from the managed tag exactly at the
position of the tag's dot character. -/
def snapX : Snapshot :=
  ⟨"snap-x", "Created by aws_snapshot_managerXpy at 2024-01-01 00:00:00",
    "2024-01-01T00:00:00.000000Z"⟩

/-- Old managed snapshot, well in the past of the reference date 2024-05-01
and not on a month end. -/
def sOldC : Snapshot :=
  ⟨"snap-old", "Created by aws_snapshot_manager.py at 2024-03-01 00:00:01",
    "2024-03-01T00:00:00.000000Z"⟩

/-- Recent managed snapshot, inside the trailing week of 2024-05-01. -/
def sNewC : Snapshot :=
  ⟨"snap-new", "Created by aws_snapshot_manager.py at 2024-04-30 00:00:01",
    "2024-04-30T00:00:00.000000Z"⟩

/-- Two-snapshot inventory used to witness the partition property. -/
def invC : List Snapshot := [sOldC, sNewC]

/-- Outcome of the retention pass on that inventory. -/
def outC : RunOutcome := ⟨[sNewC], [sOldC], [sOldC], [], PyVal.none⟩

/-- Snapshot whose start_time is not in the provider's timestamp layout. -/
def sBadC : Snapshot :=
  ⟨"snap-bad", "Created by aws_snapshot_manager.py at 2024-04-02 00:00:00",
    "not-a-timestamp"⟩

/-- Expire candidate of 2024-05-01, not on a month end. -/
def sExp1 : Snapshot :=
  ⟨"snap-e1", "Created by aws_snapshot_manager.py at 2024-03-05 00:00:01",
    "2024-03-05T00:00:00.000000Z"⟩

/-- Second expire candidate. -/
def sExp2 : Snapshot :=
  ⟨"snap-e2", "Created by aws_snapshot_manager.py at 2024-03-06 00:00:01",
    "2024-03-06T00:00:00.000000Z"⟩

/-- Third expire candidate. -/
def sExp3 : Snapshot :=
  ⟨"snap-e3", "Created by aws_snapshot_manager.py at 2024-03-07 00:00:01",
    "2024-03-07T00:00:00.000000Z"⟩

/-- Deletion oracle that fails exactly on the middle candidate. -/
def okFail2 : Snapshot → Bool := fun s => ! (s.snap_id == "snap-e2")

/-- Inventory of the three expire candidates. -/
def invExp : List Snapshot := [sExp1, sExp2, sExp3]

/-- Outcome of the pass on that inventory under the failing oracle. -/
def outExp : RunOutcome :=
  ⟨[], [sExp1, sExp2, sExp3], [sExp1, sExp2, sExp3], [sExp2], PyVal.none⟩

/-- Snapshot taken on 2024-02-29, the true last day of February 2024. -/
def sFeb29 : Snapshot :=
  ⟨"snap-feb29", "Created by aws_snapshot_manager.py at 2024-02-29 10:00:01",
    "2024-02-29T10:00:00.000000Z"⟩

/-- Second snapshot on the 2024 leap day, in a different run's inventory. -/
def sFeb29b : Snapshot :=
  ⟨"snap-feb29b", "Created by aws_snapshot_manager.py at 2024-02-29 08:00:01",
    "2024-02-29T08:00:00.000000Z"⟩

/-- Snapshot taken on 2024-02-28, which is NOT the last day of February
2024. -/
def sFeb28L : Snapshot :=
  ⟨"snap-feb28", "Created by aws_snapshot_manager.py at 2024-02-28 08:00:01",
    "2024-02-28T08:00:00.000000Z"⟩

/-- Snapshot taken on 2023-02-28, the last day of February in the
non-leap year 2023. -/
def sFeb28N : Snapshot :=
  ⟨"snap-feb28n", "Created by aws_snapshot_manager.py at 2023-02-28 08:00:01",
    "2023-02-28T08:00:00.000000Z"⟩

/-- Snapshot taken on 2020-02-29, the true last day of February 2020. -/
def sLeap20 : Snapshot :=
  ⟨"snap-leap20", "Created by aws_snapshot_manager.py at 2020-02-29 23:59:59",
    "2020-02-29T23:59:59.999999Z"⟩

/-- Timestamp of an instant three days before the reference date
2024-05-01. -/
def tsIn7 : Timestamp := ⟨2024, 4, 28, 12, 0, 0, "000000".data⟩

/-- Snapshot carrying that timestamp. -/
def sIn7 : Snapshot :=
  ⟨"snap-in7", "Created by aws_snapshot_manager.py at 2024-04-28 12:00:01",
    "2024-04-28T12:00:00.000000Z"⟩

/-- Timestamp late on the cutoff date of the reference date 2024-05-01
(exactly seven days before it). -/
def tsBoundary : Timestamp := ⟨2024, 4, 24, 23, 59, 59, "123456".data⟩

/-- Snapshot carrying that boundary timestamp. -/
def sBoundary : Snapshot :=
  ⟨"snap-bnd", "Created by aws_snapshot_manager.py at 2024-04-24 23:59:59",
    "2024-04-24T23:59:59.123456Z"⟩

/-- Outcome of the pass on the one-snapshot inventory inside the window. -/
def outIn7 : RunOutcome := ⟨[sIn7], [], [], [], PyVal.int 0⟩

/-- Outcome of the pass on the one-snapshot inventory on the boundary. -/
def outBoundary : RunOutcome := ⟨[sBoundary], [], [], [], PyVal.int 0⟩

/-! Structural lemmas about the deletion loop and the classification loop. -/

theorem delete_attempted (ok : Snapshot → Bool) :
    ∀ l, (delete_snapshots ok l).attempted = l := by
  intro l
  induction l with
  | nil => rfl
  | cons s rest ih => simp [delete_snapshots, ih]

theorem delete_failed (ok : Snapshot → Bool) :
    ∀ l, (delete_snapshots ok l).failed = l.filter (fun s => ! ok s) := by
  intro l
  induction l with
  | nil => rfl
  | cons s rest ih =>
    by_cases h : ok s <;> simp [delete_snapshots, ih, List.filter_cons, h]

theorem collect_ok_filter (cutoff : String) (l : List Snapshot) :
    ∀ kp ex, collectExpired cutoff l = .ok (kp, ex) →
      kp = l.filter (fun s => ! condOf cutoff s) ∧
        ex = l.filter (fun s => condOf cutoff s) := by
  induction l with
  | nil =>
    intro kp ex h
    simp only [collectExpired, Except.ok.injEq, Prod.mk.injEq] at h
    simp [← h.1, ← h.2]
  | cons s rest ih =>
    intro kp ex h
    simp only [collectExpired] at h
    cases hp : parseStartTime s.start_time with
    | none => rw [hp] at h; exact absurd h (by simp)
    | some dt =>
      rw [hp] at h
      cases hc : collectExpired cutoff rest with
      | error e => rw [hc] at h; exact absurd h (by simp)
      | ok p =>
        obtain ⟨kp', ex'⟩ := p
        rw [hc] at h
        dsimp only at h
        obtain ⟨ih1, ih2⟩ := ih kp' ex' hc
        have hcond : condOf cutoff s = expireCond cutoff s.start_time dt := by
          simp [condOf, hp]
        cases hb : expireCond cutoff s.start_time dt with
        | true =>
          rw [hb, if_pos rfl] at h
          simp only [Except.ok.injEq, Prod.mk.injEq] at h
          obtain ⟨h1, h2⟩ := h
          subst h1; subst h2
          constructor
          · rw [ih1, List.filter_cons_of_neg]
            simp [hcond, hb]
          · rw [ih2, List.filter_cons_of_pos]
            simp [hcond, hb]
        | false =>
          rw [hb] at h
          simp only [Bool.false_eq_true, if_false, Except.ok.injEq,
            Prod.mk.injEq] at h
          obtain ⟨h1, h2⟩ := h
          subst h1; subst h2
          constructor
          · rw [ih1, List.filter_cons_of_pos]
            simp [hcond, hb]
          · rw [ih2, List.filter_cons_of_neg]
            simp [hcond, hb]

theorem collect_error_of_bad (cutoff : String) (l : List Snapshot) :
    (∃ s ∈ l, parseStartTime s.start_time = none) →
      ∃ e, collectExpired cutoff l = .error e := by
  induction l with
  | nil => rintro ⟨s, hs, -⟩; exact absurd hs (List.not_mem_nil s)
  | cons t rest ih =>
    rintro ⟨s, hs, hbad⟩
    rcases List.mem_cons.mp hs with h | h
    · subst h
      exact ⟨⟨s.start_time⟩, by simp [collectExpired, hbad]⟩
    · cases hp : parseStartTime t.start_time with
      | none => exact ⟨⟨t.start_time⟩, by simp [collectExpired, hp]⟩
      | some dt =>
        obtain ⟨e, he⟩ := ih ⟨s, h, hbad⟩
        exact ⟨e, by simp [collectExpired, hp, he]⟩

theorem collect_ok_of_parses (cutoff : String) (l : List Snapshot) :
    (∀ s ∈ l, (parseStartTime s.start_time).isSome) →
      ∃ p, collectExpired cutoff l = .ok p := by
  induction l with
  | nil => intro _; exact ⟨([], []), rfl⟩
  | cons t rest ih =>
    intro hall
    have ht := hall t (List.mem_cons_self t rest)
    cases hp : parseStartTime t.start_time with
    | none => rw [hp] at ht; simp at ht
    | some dt =>
      obtain ⟨⟨kp, ex⟩, hc⟩ := ih fun s hs => hall s (List.mem_cons_of_mem t hs)
      by_cases hb : expireCond cutoff t.start_time dt
      · exact ⟨(kp, t :: ex), by simp [collectExpired, hp, hc, hb]⟩
      · exact ⟨(t :: kp, ex), by simp [collectExpired, hp, hc, hb]⟩

theorem manage_ok_spec (ok : Snapshot → Bool) (today : Date) (inv : List Snapshot)
    (out : RunOutcome) (h : manage_snapshot_inventory ok today inv = .ok out) :
    collectExpired (isoDate (subDays today 7)) inv = .ok (out.keep, out.expire) ∧
      out.attempted = out.expire ∧
      out.failed = out.expire.filter (fun s => ! ok s) ∧
      (out.result = PyVal.none ∨ (out.expire = [] ∧ out.result = PyVal.int 0)) := by
  simp only [manage_snapshot_inventory] at h
  cases hc : collectExpired (isoDate (subDays today 7)) inv with
  | error e => rw [hc] at h; exact absurd h (by simp)
  | ok p =>
    obtain ⟨kp, ex⟩ := p
    rw [hc] at h
    dsimp only at h
    by_cases h1 : 0 < (ex.length : Int)
    · rw [if_pos h1] at h
      simp only [Except.ok.injEq] at h
      subst h
      exact ⟨rfl, delete_attempted ok ex, delete_failed ok ex, Or.inl rfl⟩
    · rw [if_neg h1] at h
      have h2 : (ex.length : Int) = 0 := by omega
      rw [if_pos h2] at h
      simp only [Except.ok.injEq] at h
      subst h
      have hnil : ex = [] := by simpa using h2
      exact ⟨rfl, by simp [hnil], by simp [hnil], Or.inr ⟨hnil, rfl⟩⟩

/-! Lexicographic order machinery: the comparison the script performs on
raw strings is related to the chronological order of the dates they
render. -/

theorem charListLe_false_of_lex {x y : List Char}
    (h : List.Lex (· < ·) y x) : charListLe x y = false := by
  induction h with
  | nil => rfl
  | @rel a₁ l₁ a₂ l₂ hab =>
    simp only [charListLe]
    rw [if_neg (ne_of_gt hab)]
    exact decide_eq_false (lt_asymm hab)
  | @cons a l₁ l₂ h ih =>
    simp only [charListLe, if_pos rfl]
    exact ih

theorem lex_self_append (l : List Char) (c : Char) (r : List Char) :
    List.Lex (· < ·) l (l ++ c :: r) := by
  induction l with
  | nil => exact List.Lex.nil
  | cons a as ih => exact List.Lex.cons ih

theorem lex_append_eq_len : ∀ {l₁ l₂ : List Char}, List.Lex (· < ·) l₁ l₂ →
    l₁.length = l₂.length → ∀ t₁ t₂, List.Lex (· < ·) (l₁ ++ t₁) (l₂ ++ t₂) := by
  intro l₁ l₂ h
  induction h with
  | nil => intro hlen; simp at hlen
  | rel hab => intro _ t₁ t₂; exact List.Lex.rel hab
  | cons h ih => intro hlen t₁ t₂; exact List.Lex.cons (ih (by simpa using hlen) t₁ t₂)

theorem digitChar_isDigit : ∀ d < 10, (digitChar d).isDigit = true := by decide

theorem digitChar_toNat : ∀ d < 10, (digitChar d).toNat - 48 = d := by decide

theorem digitChar_lt : ∀ a < 10, ∀ b < 10, a < b → digitChar a < digitChar b := by
  decide

theorem padNum_length : ∀ k n, (padNum k n).length = k := by
  intro k
  induction k with
  | zero => intro n; rfl
  | succ k ih => intro n; simp [padNum, ih]

theorem padNum_congr : ∀ k a b, a % 10 ^ k = b % 10 ^ k → padNum k a = padNum k b := by
  intro k
  induction k with
  | zero => intro a b _; rfl
  | succ k ih =>
    intro a b h
    have hd : a / 10 ^ k % 10 = b / 10 ^ k % 10 := by
      have ha := Nat.mod_mul_right_div_self a (10 ^ k) 10
      have hb := Nat.mod_mul_right_div_self b (10 ^ k) 10
      rw [← pow_succ] at ha hb
      rw [← ha, ← hb, h]
    have ht : a % 10 ^ k = b % 10 ^ k := by
      have hdvd : (10 : ℕ) ^ k ∣ 10 ^ (k + 1) := ⟨10, pow_succ 10 k⟩
      have ha := Nat.mod_mod_of_dvd a hdvd
      have hb := Nat.mod_mod_of_dvd b hdvd
      rw [← ha, ← hb, h]
    simp [padNum, hd, ih _ _ ht]

theorem padNum_lex : ∀ k a b, a < b → b < 10 ^ k →
    List.Lex (· < ·) (padNum k a) (padNum k b) := by
  intro k
  induction k with
  | zero => intro a b hab hb; omega
  | succ k ih =>
    intro a b hab hb
    have hpos : 0 < (10 : ℕ) ^ k := Nat.pos_pow_of_pos k (by norm_num)
    have hbk : b / 10 ^ k < 10 := by
      rw [Nat.div_lt_iff_lt_mul hpos]
      calc b < 10 ^ (k + 1) := hb
        _ = 10 * 10 ^ k := by ring
    have hak : a / 10 ^ k < 10 :=
      lt_of_le_of_lt (Nat.div_le_div_right (le_of_lt hab)) hbk
    rcases Nat.lt_or_ge (a / 10 ^ k) (b / 10 ^ k) with hlt | hge
    · have h1 : a / 10 ^ k % 10 = a / 10 ^ k := Nat.mod_eq_of_lt hak
      have h2 : b / 10 ^ k % 10 = b / 10 ^ k := Nat.mod_eq_of_lt hbk
      simp only [padNum, h1, h2]
      exact List.Lex.rel (digitChar_lt _ hak _ hbk hlt)
    · have heq : a / 10 ^ k = b / 10 ^ k :=
        le_antisymm (Nat.div_le_div_right (le_of_lt hab)) hge
      have hmod : a % 10 ^ k < b % 10 ^ k := by
        have ha := Nat.div_add_mod a (10 ^ k)
        have hb2 := Nat.div_add_mod b (10 ^ k)
        have hsum : 10 ^ k * (a / 10 ^ k) + a % 10 ^ k <
            10 ^ k * (b / 10 ^ k) + b % 10 ^ k := by
          rw [ha, hb2]; exact hab
        rw [heq] at hsum
        exact lt_of_add_lt_add_left hsum
      have hmb : b % 10 ^ k < 10 ^ k := Nat.mod_lt _ hpos
      have hrec := ih (a % 10 ^ k) (b % 10 ^ k) hmod hmb
      rw [padNum_congr k (a % 10 ^ k) a (Nat.mod_mod_of_dvd a dvd_rfl),
        padNum_congr k (b % 10 ^ k) b (Nat.mod_mod_of_dvd b dvd_rfl)] at hrec
      simp only [padNum, heq]
      exact List.Lex.cons hrec

/-! Calendar facts and the chronological ordering of rendered dates. -/

theorem daysInMonth_le (y m : Nat) : daysInMonth y m ≤ 31 := by
  unfold daysInMonth; split_ifs <;> omega

theorem daysInMonth_ge (y m : Nat) : 28 ≤ daysInMonth y m := by
  unfold daysInMonth; split_ifs <;> omega

theorem daysInMonth_twelve (y : Nat) : daysInMonth y 12 = 31 := by
  simp [daysInMonth]

theorem ValidDate_tsDate {ts : Timestamp} (h : ValidTS ts) : ValidDate (tsDate ts) := by
  unfold ValidTS at h
  obtain ⟨h1, h2, h3, h4, h5, h6, -⟩ := h
  exact ⟨h1, h2, h3, h4, h5, h6⟩

theorem ValidDate_mk (y m d : Nat) :
    ValidDate ⟨y, m, d⟩ ↔
      1 ≤ y ∧ y ≤ 9999 ∧ 1 ≤ m ∧ m ≤ 12 ∧ 1 ≤ d ∧ d ≤ daysInMonth y m :=
  Iff.rfl

theorem dateLt_mk (y1 m1 d1 y2 m2 d2 : Nat) :
    dateLt ⟨y1, m1, d1⟩ ⟨y2, m2, d2⟩ ↔
      y1 < y2 ∨ (y1 = y2 ∧ (m1 < m2 ∨ (m1 = m2 ∧ d1 < d2))) :=
  Iff.rfl

theorem dateLe_mk (y1 m1 d1 y2 m2 d2 : Nat) :
    dateLe ⟨y1, m1, d1⟩ ⟨y2, m2, d2⟩ ↔
      (y1 < y2 ∨ (y1 = y2 ∧ (m1 < m2 ∨ (m1 = m2 ∧ d1 < d2)))) ∨
        (y1 = y2 ∧ m1 = m2 ∧ d1 = d2) := by
  unfold dateLe
  rw [dateLt_mk, Date.mk.injEq]

theorem isoDateChars_lex {a b : Date} (ha : ValidDate a) (hb : ValidDate b)
    (hab : dateLt a b) : List.Lex (· < ·) (isoDateChars a) (isoDateChars b) := by
  obtain ⟨ya, ma, da⟩ := a
  obtain ⟨yb, mb, db⟩ := b
  rw [ValidDate_mk] at ha hb
  obtain ⟨ha1, ha2, ha3, ha4, ha5, ha6⟩ := ha
  obtain ⟨hb1, hb2, hb3, hb4, hb5, hb6⟩ := hb
  rw [dateLt_mk] at hab
  show List.Lex (· < ·)
    (padNum 4 ya ++ '-' :: (padNum 2 ma ++ '-' :: padNum 2 da))
    (padNum 4 yb ++ '-' :: (padNum 2 mb ++ '-' :: padNum 2 db))
  rcases hab with hy | ⟨hy, hm | ⟨hm, hd⟩⟩
  · exact lex_append_eq_len (padNum_lex 4 ya yb hy (by omega))
      (by rw [padNum_length, padNum_length]) _ _
  · subst hy
    refine List.Lex.append_left _ ?_ (padNum 4 ya)
    refine List.Lex.cons ?_
    exact lex_append_eq_len (padNum_lex 2 ma mb hm (by omega))
      (by rw [padNum_length, padNum_length]) _ _
  · subst hy; subst hm
    refine List.Lex.append_left _ ?_ (padNum 4 ya)
    refine List.Lex.cons ?_
    refine List.Lex.append_left _ ?_ (padNum 2 ma)
    refine List.Lex.cons ?_
    have hdb : db < 10 ^ 2 := by
      have := daysInMonth_le ya ma
      omega
    exact padNum_lex 2 da db hd hdb

theorem dateLt_of_lt_of_le {a b c : Date} (h1 : dateLt a b) (h2 : dateLe b c) :
    dateLt a c := by
  have h2' : dateLt b c ∨ b = c := h2
  rcases h2' with h2' | rfl
  · obtain ⟨ya, ma, da⟩ := a
    obtain ⟨yb, mb, db⟩ := b
    obtain ⟨yc, mc, dc⟩ := c
    rw [dateLt_mk] at h1 h2' ⊢
    omega
  · exact h1

theorem prevDay_step (k : Nat) (hk : k ≤ 27) (d : Date) (hv : ValidDate d)
    (hge : dateLe ⟨1, 1, k + 2⟩ d) :
    ValidDate (prevDay d) ∧ dateLe ⟨1, 1, k + 1⟩ (prevDay d) ∧
      dateLt (prevDay d) d := by
  obtain ⟨y, m, day⟩ := d
  rw [ValidDate_mk] at hv
  obtain ⟨h1, h2, h3, h4, h5, h6⟩ := hv
  rw [dateLe_mk] at hge
  have hdm31 := daysInMonth_le y m
  unfold prevDay
  dsimp only
  split_ifs with hd1 hm1
  · refine ⟨(ValidDate_mk _ _ _).mpr (by omega), ?_, ?_⟩
    · rw [dateLe_mk]; omega
    · rw [dateLt_mk]; omega
  · have hb28 := daysInMonth_ge y (m - 1)
    have hb31 := daysInMonth_le y (m - 1)
    refine ⟨(ValidDate_mk _ _ _).mpr ⟨h1, h2, by omega, by omega, by omega, le_refl _⟩,
      ?_, ?_⟩
    · rw [dateLe_mk]; omega
    · rw [dateLt_mk]; omega
  · have h12 := daysInMonth_twelve (y - 1)
    have hy2 : 2 ≤ y := by omega
    refine ⟨(ValidDate_mk _ _ _).mpr
      ⟨by omega, by omega, by omega, by omega, by omega, by rw [h12]⟩, ?_, ?_⟩
    · rw [dateLe_mk]; omega
    · rw [dateLt_mk]; omega

theorem subDays_chain (today : Date) (hv : ValidDate today)
    (h8 : dateLe ⟨1, 1, 8⟩ today) :
    ∀ k, k ≤ 7 →
      ValidDate (subDays today k) ∧ dateLe ⟨1, 1, 8 - k⟩ (subDays today k) := by
  intro k
  induction k with
  | zero => intro _; exact ⟨hv, h8⟩
  | succ k ih =>
    intro hk7
    obtain ⟨ihv, ihge⟩ := ih (by omega)
    have hge2 : dateLe ⟨1, 1, (6 - k) + 2⟩ (subDays today k) := by
      rw [show (6 - k) + 2 = 8 - k from by omega]
      exact ihge
    obtain ⟨hv', hge', -⟩ := prevDay_step (6 - k) (by omega) (subDays today k) ihv hge2
    refine ⟨hv', ?_⟩
    rw [show 8 - (k + 1) = (6 - k) + 1 from by omega]
    exact hge'

theorem subDays_seven_lt (today : Date) (hv : ValidDate today)
    (h8 : dateLe ⟨1, 1, 8⟩ today) :
    dateLt (subDays today 7) (subDays today 6) ∧ ValidDate (subDays today 7) ∧
      ValidDate (subDays today 6) := by
  obtain ⟨hv6, hge6⟩ := subDays_chain today hv h8 6 (by omega)
  obtain ⟨hv7, -, hlt⟩ := prevDay_step 0 (by omega) (subDays today 6) hv6 hge6
  exact ⟨hlt, hv7, hv6⟩

/-! Round trip: a canonically rendered timestamp parses back to its own
fields. -/

theorem readFixed_pad : ∀ k acc n (r : List Char),
    readFixed k acc (padNum k n ++ r) = some (acc * 10 ^ k + n % 10 ^ k, r) := by
  intro k
  induction k with
  | zero => intro acc n r; simp [readFixed, padNum, Nat.mod_one]
  | succ k ih =>
    intro acc n r
    have hd : n / 10 ^ k % 10 < 10 := Nat.mod_lt _ (by norm_num)
    show readFixed (k + 1) acc (digitChar (n / 10 ^ k % 10) :: (padNum k n ++ r)) = _
    rw [readFixed, if_pos (digitChar_isDigit _ hd), digitChar_toNat _ hd, ih]
    have hx : n % (10 ^ k * 10) = 10 ^ k * (n / 10 ^ k % 10) + n % 10 ^ k := by
      conv_lhs => rw [← Nat.div_add_mod (n % (10 ^ k * 10)) (10 ^ k)]
      rw [Nat.mod_mul_right_div_self, Nat.mod_mod_of_dvd n ⟨10, rfl⟩]
    rw [pow_succ, hx]
    refine congrArg some (congrArg (fun x => (x, r)) ?_)
    ring

theorem read12_pad (n : Nat) (hn : n < 100) :
    ∀ r : List Char, read12 (padNum 2 n ++ r) = some (n, r) := by
  intro r
  have h1 : n / 10 % 10 < 10 := Nat.mod_lt _ (by norm_num)
  have h2 : n % 10 < 10 := Nat.mod_lt _ (by norm_num)
  have hpad : padNum 2 n = [digitChar (n / 10 % 10), digitChar (n % 10)] := by
    show digitChar (n / 10 ^ 1 % 10) :: digitChar (n / 10 ^ 0 % 10) :: [] = _
    norm_num
  rw [hpad]
  show read12 (digitChar (n / 10 % 10) :: digitChar (n % 10) :: r) = _
  rw [read12]
  rw [if_pos (digitChar_isDigit _ h1)]
  rw [if_pos (digitChar_isDigit _ h2), digitChar_toNat _ h1, digitChar_toNat _ h2]
  refine congrArg some (congrArg (fun x => (x, r)) ?_)
  omega

theorem readMore_stops : ∀ (l : List Char) (fuel acc cnt : Nat) (r : List Char),
    l.length ≤ fuel → (∀ c ∈ l, c.isDigit = true) →
    ∃ v m, readMore fuel acc cnt (l ++ 'Z' :: r) = (v, m, 'Z' :: r) := by
  intro l
  induction l with
  | nil =>
    intro fuel acc cnt r _ _
    cases fuel with
    | zero => exact ⟨acc, cnt, rfl⟩
    | succ f =>
      have hz : ('Z').isDigit = false := by decide
      exact ⟨acc, cnt, by simp [readMore, hz]⟩
  | cons c l ih =>
    intro fuel acc cnt r hlen hdig
    cases fuel with
    | zero => simp at hlen
    | succ f =>
      have hc : c.isDigit = true := hdig c (List.mem_cons_self c l)
      obtain ⟨v, m, hm⟩ := ih f (acc * 10 + (c.toNat - 48)) (cnt + 1) r
        (by simpa using hlen) (fun x hx => hdig x (List.mem_cons_of_mem c hx))
      exact ⟨v, m, by simp [readMore, hc, hm]⟩

theorem readFrac_frac (l : List Char) (r : List Char) (hne : l ≠ [])
    (hlen : l.length ≤ 6) (hdig : ∀ c ∈ l, c.isDigit = true) :
    ∃ v, readFrac (l ++ 'Z' :: r) = some (v, 'Z' :: r) := by
  cases l with
  | nil => exact absurd rfl hne
  | cons c l =>
    have hc : c.isDigit = true := hdig c (List.mem_cons_self c l)
    obtain ⟨v, m, hm⟩ := readMore_stops l 5 (c.toNat - 48) 1 r
      (by simpa using hlen) (fun x hx => hdig x (List.mem_cons_of_mem c hx))
    exact ⟨v * 10 ^ (6 - m), by simp [readFrac, hc, hm]⟩

theorem lit_cons (c : Char) (r : List Char) : lit c (c :: r) = some r := by
  simp [lit]

theorem readDatePart_fmt (d : Date) (rest : List Char)
    (hy : d.year < 10000) (hm : d.month < 100) (hd : d.day < 100) :
    readDatePart (isoDateChars d ++ 'T' :: rest) =
      some (d.year, d.month, d.day, rest) := by
  obtain ⟨y, mo, dy⟩ := d
  show readDatePart
    ((padNum 4 y ++ '-' :: (padNum 2 mo ++ '-' :: padNum 2 dy)) ++ 'T' :: rest) = _
  have hshape :
      (padNum 4 y ++ '-' :: (padNum 2 mo ++ '-' :: padNum 2 dy)) ++ 'T' :: rest =
        padNum 4 y ++ '-' :: (padNum 2 mo ++ '-' :: (padNum 2 dy ++ 'T' :: rest)) := by
    simp [List.append_assoc]
  rw [hshape]
  have hy' : y < 10000 := hy
  have hm' : mo < 100 := hm
  have hd' : dy < 100 := hd
  have hy4 : y % 10000 = y := Nat.mod_eq_of_lt hy'
  simp [readDatePart, readFixed_pad, lit_cons, read12_pad mo hm', read12_pad dy hd', hy4]

theorem readTimePart_fmt (h mi s : Nat) (tail : List Char)
    (hh : h < 100) (hmi : mi < 100) (hs : s < 100) :
    readTimePart (padNum 2 h ++ ':' :: (padNum 2 mi ++ ':' :: (padNum 2 s ++
      '.' :: tail))) = some (h, mi, s, tail) := by
  simp [readTimePart, lit_cons, read12_pad h hh, read12_pad mi hmi, read12_pad s hs]

theorem readTailPart_fmt (l : List Char) (hne : l ≠ []) (hlen : l.length ≤ 6)
    (hdig : ∀ c ∈ l, c.isDigit = true) :
    ∃ us, readTailPart (l ++ ['Z']) = some us := by
  obtain ⟨v, hv⟩ := readFrac_frac l [] hne hlen hdig
  exact ⟨v, by simp [readTailPart, hv, lit_cons]⟩

theorem parse_fmt (ts : Timestamp) (hv : ValidTS ts) :
    ∃ us, parseStartTime (fmtTS ts) =
      some ⟨ts.year, ts.month, ts.day, ts.hour, ts.minute, ts.second, us⟩ := by
  have hv' := hv
  unfold ValidTS at hv'
  obtain ⟨hy1, hy2, hm1, hm2, hd1, hd2, hh, hmi, hs, hfne, hflen, hfdig⟩ := hv'
  have hdy : ts.day < 100 := by
    have := daysInMonth_le ts.year ts.month
    omega
  obtain ⟨us, hus⟩ := readTailPart_fmt ts.frac hfne hflen
    (fun c hc => hfdig c hc)
  refine ⟨us, ?_⟩
  show parseChars (fmtTSChars ts) = _
  have hfmt : fmtTSChars ts = isoDateChars (tsDate ts) ++
      'T' :: (padNum 2 ts.hour ++ ':' :: (padNum 2 ts.minute ++
        ':' :: (padNum 2 ts.second ++ '.' :: (ts.frac ++ ['Z'])))) := rfl
  rw [hfmt]
  have hdate := readDatePart_fmt (tsDate ts)
    (padNum 2 ts.hour ++ ':' :: (padNum 2 ts.minute ++
      ':' :: (padNum 2 ts.second ++ '.' :: (ts.frac ++ ['Z']))))
    (by show ts.year < 10000; omega) (by show ts.month < 100; omega)
    (by show ts.day < 100; omega)
  have htime := readTimePart_fmt ts.hour ts.minute ts.second (ts.frac ++ ['Z'])
    (by omega) (by omega) (by omega)
  have hdate' : readDatePart (isoDateChars (tsDate ts) ++
      'T' :: (padNum 2 ts.hour ++ ':' :: (padNum 2 ts.minute ++
        ':' :: (padNum 2 ts.second ++ '.' :: (ts.frac ++ ['Z']))))) =
      some (ts.year, ts.month, ts.day,
        padNum 2 ts.hour ++ ':' :: (padNum 2 ts.minute ++
          ':' :: (padNum 2 ts.second ++ '.' :: (ts.frac ++ ['Z'])))) := hdate
  simp only [parseChars, hdate', htime, hus, Option.bind_eq_bind', Option.some_bind]
  rw [if_pos ⟨hy1, hy2, hm1, hm2, hd1, hd2, hh, hmi, hs⟩]

/-- Expiry never fires for a snapshot whose raw timestamp string exceeds
the cutoff string, whether or not the timestamp parses. -/
theorem condOf_false_of_strLe_false (cutoff : String) (s : Snapshot)
    (h : strLe s.start_time cutoff = false) : condOf cutoff s = false := by
  unfold condOf
  cases parseStartTime s.start_time with
  | none => rfl
  | some dt => simp [expireCond, h]

/-! The trailing retention window and the cutoff boundary. -/

/-- C4: a snapshot whose date lies in the closed window from six days
before the reference date up to the reference date is never placed in
the expire set, whatever its month-end status: its rendered timestamp
string is lexicographically above the cutoff's ISO date string.
The reference date is a real calendar date no earlier than January 8 of
year 1, so the seven-day subtraction stays inside the calendar. -/
theorem c4_seven_day_floor (ok : Snapshot → Bool) (today : Date)
    (inv : List Snapshot) (s : Snapshot) (ts : Timestamp) (out : RunOutcome)
    (hvt : ValidDate today) (h8 : dateLe ⟨1, 1, 8⟩ today)
    (hs : s ∈ inv) (hst : s.start_time = fmtTS ts) (hts : ValidTS ts)
    (hlow : dateLe (subDays today 6) (tsDate ts)) (hhigh : dateLe (tsDate ts) today)
    (hrun : manage_snapshot_inventory ok today inv = .ok out) :
    s ∉ out.expire := by
  obtain ⟨hc, -, -, -⟩ := manage_ok_spec ok today inv out hrun
  obtain ⟨-, hex⟩ := collect_ok_filter _ inv out.keep out.expire hc
  rw [hex]
  intro hmem
  have hcond := (List.mem_filter.mp hmem).2
  obtain ⟨hlt7, hv7, hv6⟩ := subDays_seven_lt today hvt h8
  have hltcut : dateLt (subDays today 7) (tsDate ts) :=
    dateLt_of_lt_of_le hlt7 hlow
  have hlex : List.Lex (· < ·) (isoDateChars (subDays today 7))
      (isoDateChars (tsDate ts)) :=
    isoDateChars_lex hv7 (ValidDate_tsDate hts) hltcut
  have hlex2 : List.Lex (· < ·) (isoDateChars (subDays today 7)) (fmtTSChars ts) := by
    have hsplit : fmtTSChars ts = isoDateChars (tsDate ts) ++
        'T' :: (padNum 2 ts.hour ++ ':' :: (padNum 2 ts.minute ++
          ':' :: (padNum 2 ts.second ++ '.' :: (ts.frac ++ ['Z'])))) := rfl
    rw [hsplit]
    exact List.Lex.append_right _ _ hlex
  have hsle : strLe s.start_time (isoDate (subDays today 7)) = false := by
    rw [hst]
    exact charListLe_false_of_lex hlex2
  have hcf := condOf_false_of_strLe_false (isoDate (subDays today 7)) s hsle
  rw [hcf] at hcond
  exact absurd hcond (by simp)

theorem c4_seven_day_floor_witness : sIn7 ∉ outIn7.expire :=
  c4_seven_day_floor okAll ⟨2024, 5, 1⟩ [sIn7] sIn7 tsIn7 outIn7
    (by decide) (by decide) (by decide) (by rfl) (by decide)
    (by decide) (by decide) (by rfl)

/-- C9: a snapshot whose date is exactly seven days before the reference
date is always kept, whatever its time of day: its start_time string
extends the cutoff's ISO date string by a 'T' and a time part, so it
compares strictly greater than the cutoff and the age test fails. -/
theorem c9_cutoff_boundary_keep (ok : Snapshot → Bool) (today : Date)
    (inv : List Snapshot) (s : Snapshot) (ts : Timestamp) (out : RunOutcome)
    (hs : s ∈ inv) (hst : s.start_time = fmtTS ts)
    (hd : tsDate ts = subDays today 7)
    (hrun : manage_snapshot_inventory ok today inv = .ok out) :
    s ∈ out.keep ∧ s ∉ out.expire := by
  obtain ⟨hc, -, -, -⟩ := manage_ok_spec ok today inv out hrun
  obtain ⟨hkp, hex⟩ := collect_ok_filter _ inv out.keep out.expire hc
  have hlex : List.Lex (· < ·) (isoDateChars (subDays today 7)) (fmtTSChars ts) := by
    have hsplit : fmtTSChars ts = isoDateChars (tsDate ts) ++
        'T' :: (padNum 2 ts.hour ++ ':' :: (padNum 2 ts.minute ++
          ':' :: (padNum 2 ts.second ++ '.' :: (ts.frac ++ ['Z'])))) := rfl
    rw [hsplit, hd]
    exact lex_self_append _ _ _
  have hsle : strLe s.start_time (isoDate (subDays today 7)) = false := by
    rw [hst]
    exact charListLe_false_of_lex hlex
  have hcf := condOf_false_of_strLe_false (isoDate (subDays today 7)) s hsle
  constructor
  · rw [hkp]
    exact List.mem_filter.mpr ⟨hs, by simp [hcf]⟩
  · rw [hex]
    intro hmem
    have hcond := (List.mem_filter.mp hmem).2
    rw [hcf] at hcond
    exact absurd hcond (by simp)

theorem c9_cutoff_boundary_keep_witness :
    sBoundary ∈ outBoundary.keep ∧ sBoundary ∉ outBoundary.expire :=
  c9_cutoff_boundary_keep okAll ⟨2024, 5, 1⟩ [sBoundary] sBoundary tsBoundary
    outBoundary (by decide) (by rfl) (by decide) (by rfl)

/-! Inventory filter: relation between the regex match the script performs
and the exact-prefix selection the specification describes. -/

theorem tag_atoms : ∀ c ∈ patChars, atomMatch c c = true := by decide

theorem reMatch_of_listStart :
    ∀ ps cs, (∀ c ∈ ps, atomMatch c c = true) → listStart ps cs = true →
      reMatchLit ps cs = true := by
  intro ps
  induction ps with
  | nil => intro cs _ _; rfl
  | cons p ps ih =>
    intro cs hself hs
    cases cs with
    | nil => exact absurd hs (by simp [listStart])
    | cons c cs =>
      simp only [listStart, Bool.and_eq_true, beq_iff_eq] at hs
      obtain ⟨rfl, hs2⟩ := hs
      have h1 : atomMatch p p = true := hself p (List.mem_cons_self p ps)
      have h2 := ih cs (fun c hc => hself c (List.mem_cons_of_mem p hc)) hs2
      simp [reMatchLit, h1, h2]

/-- C5 counterexample: the filter admits a snapshot whose description does
NOT begin with the managed-tag string (it differs at the position of the
dot, which `re.match` treats as a wildcard), so the filter does not return
exactly the exact-prefix matches. -/
theorem c5_counterexample :
    snapX ∈ get_snapshot_list [snapX] ∧ litTagStart snapX.description = false := by
  decide

/-- C5 (amended): `get_snapshot_list` returns, in input order (a sublist of
the input), exactly the snapshots whose description matches the tag
pattern start-anchored, where every pattern character is literal except
the dot of ".py", which matches any single non-newline character; an
exact-prefix match is a special case of this rule. -/
theorem c5_inventory_filter (l : List Snapshot) :
    (get_snapshot_list l).Sublist l ∧
      (∀ s, s ∈ get_snapshot_list l ↔ s ∈ l ∧ dotTagMatch s.description = true) ∧
      (∀ str : String, litTagStart str = true → dotTagMatch str = true) := by
  refine ⟨List.filter_sublist l, fun s => ?_, fun str h => ?_⟩
  · simp [get_snapshot_list, List.mem_filter]
  · exact reMatch_of_listStart patChars str.data tag_atoms h

/-! Partition completeness of the retention decision. -/

/-- C6: every snapshot of the inventory lands in exactly one of the keep
and expire lists, and those lists contain nothing else. -/
theorem c6_partition (ok : Snapshot → Bool) (today : Date) (inv : List Snapshot)
    (out : RunOutcome) (s : Snapshot)
    (h : manage_snapshot_inventory ok today inv = .ok out) :
    (s ∈ inv ↔ s ∈ out.keep ∨ s ∈ out.expire) ∧
      ¬(s ∈ out.keep ∧ s ∈ out.expire) := by
  obtain ⟨hc, -, -, -⟩ := manage_ok_spec ok today inv out h
  obtain ⟨h1, h2⟩ := collect_ok_filter _ inv out.keep out.expire hc
  rw [h1, h2]
  constructor
  · constructor
    · intro hs
      cases hcnd : condOf (isoDate (subDays today 7)) s with
      | true => exact Or.inr (List.mem_filter.mpr ⟨hs, hcnd⟩)
      | false => exact Or.inl (List.mem_filter.mpr ⟨hs, by simp [hcnd]⟩)
    · rintro (hs | hs) <;> exact (List.mem_filter.mp hs).1
  · rintro ⟨hk, he⟩
    have hk2 := (List.mem_filter.mp hk).2
    have he2 := (List.mem_filter.mp he).2
    rw [he2] at hk2
    simp at hk2

theorem c6_partition_witness :
    (sOldC ∈ invC ↔ sOldC ∈ outC.keep ∨ sOldC ∈ outC.expire) ∧
      ¬(sOldC ∈ outC.keep ∧ sOldC ∈ outC.expire) :=
  c6_partition okAll ⟨2024, 5, 1⟩ invC outC sOldC (by rfl)

/-! Error behaviour of the retention pass. -/

/-- C7: a snapshot whose start_time cannot be parsed makes the retention
pass fail with a ParseErr (nothing is silently classified), and a pass
over an inventory whose timestamps all parse raises nothing. -/
theorem c7_parse_error (ok : Snapshot → Bool) (today : Date) (inv : List Snapshot) :
    ((∃ s ∈ inv, parseStartTime s.start_time = none) →
        isOkRun (manage_snapshot_inventory ok today inv) = false) ∧
      ((∀ s ∈ inv, (parseStartTime s.start_time).isSome) →
        isOkRun (manage_snapshot_inventory ok today inv) = true) := by
  constructor
  · intro hbad
    obtain ⟨e, he⟩ := collect_error_of_bad (isoDate (subDays today 7)) inv hbad
    simp [manage_snapshot_inventory, he, isOkRun]
  · intro hall
    obtain ⟨⟨kp, ex⟩, hc⟩ := collect_ok_of_parses (isoDate (subDays today 7)) inv hall
    simp only [manage_snapshot_inventory]
    rw [hc]
    dsimp only
    by_cases h1 : 0 < (ex.length : Int)
    · rw [if_pos h1]; rfl
    · rw [if_neg h1]
      have h2 : (ex.length : Int) = 0 := by omega
      rw [if_pos h2]; rfl

theorem c7_parse_error_witness :
    isOkRun (manage_snapshot_inventory okAll ⟨2024, 5, 1⟩ [sBadC]) = false ∧
      isOkRun (manage_snapshot_inventory okAll ⟨2024, 5, 1⟩ invC) = true :=
  ⟨(c7_parse_error okAll ⟨2024, 5, 1⟩ [sBadC]).1 ⟨sBadC, by decide, by rfl⟩,
    (c7_parse_error okAll ⟨2024, 5, 1⟩ invC).2 (by decide)⟩

/-! Deletion-failure tolerance and the value returned by the pass. -/

/-- C8 counterexample: with one of three expire candidates failing to
delete, all three deletions are attempted and the run raises nothing, but
the pass returns Python None — there is no non-zero advisory status
anywhere (the delete loop has no return value and the caller discards the
result). -/
theorem c8_counterexample :
    manage_snapshot_inventory okFail2 ⟨2024, 5, 1⟩ invExp = .ok outExp ∧
      outExp.failed = [sExp2] ∧
      outExp.attempted = invExp ∧
      isIntStatus outExp.result = false :=
  ⟨by rfl, by rfl, by rfl, by rfl⟩

/-- C8 (amended): whatever deletion calls fail, a delete call is issued
for every member of the expire list in order (no failure aborts the loop),
the failing members are exactly those recorded, and the run completes
without an exception — but it yields Python None in the delete branch
(status 0 only when there was nothing to delete), never a non-zero
advisory status. -/
theorem c8_deletion_tolerance (ok : Snapshot → Bool) (today : Date)
    (inv : List Snapshot) (out : RunOutcome)
    (h : manage_snapshot_inventory ok today inv = .ok out) :
    out.attempted = out.expire ∧
      out.failed = out.expire.filter (fun s => ! ok s) ∧
      (out.result = PyVal.none ∨ (out.expire = [] ∧ out.result = PyVal.int 0)) := by
  obtain ⟨-, h2, h3, h4⟩ := manage_ok_spec ok today inv out h
  exact ⟨h2, h3, h4⟩

theorem c8_deletion_tolerance_witness :
    outExp.attempted = outExp.expire ∧
      outExp.failed = outExp.expire.filter (fun s => ! okFail2 s) ∧
      (outExp.result = PyVal.none ∨ (outExp.expire = [] ∧ outExp.result = PyVal.int 0)) :=
  c8_deletion_tolerance okFail2 ⟨2024, 5, 1⟩ invExp outExp (by rfl)

/-- C10: the defensive negative-count branch cannot fire: every successful
retention pass returns either the delete-branch value (Python None) or the
nothing-to-delete status 0, never the negative-count error status 1. -/
theorem c10_negative_branch_unreachable (ok : Snapshot → Bool) (today : Date)
    (inv : List Snapshot) (out : RunOutcome)
    (h : manage_snapshot_inventory ok today inv = .ok out) :
    out.result = PyVal.none ∨ out.result = PyVal.int 0 := by
  obtain ⟨-, -, -, h4⟩ := manage_ok_spec ok today inv out h
  rcases h4 with h' | ⟨-, h'⟩
  · exact Or.inl h'
  · exact Or.inr h'

theorem c10_negative_branch_unreachable_witness :
    (⟨[], [], [], [], PyVal.int 0⟩ : RunOutcome).result = PyVal.none ∨
      (⟨[], [], [], [], PyVal.int 0⟩ : RunOutcome).result = PyVal.int 0 :=
  c10_negative_branch_unreachable okAll ⟨2024, 5, 1⟩ [] _ (by rfl)

/-! Leap-year behaviour of the month-end test.  The script's header
documents the policy "Always keep the snapshot taken on the last day of
the month", but line 101 reads February's length from `calendar.mdays`,
which is 28 in every year. -/

/-- C1 (code behaviour at the failing input): on reference date 2024-03-15
the pass expires the 2024-02-29 snapshot even though its timestamp is at
most the cutoff string AND its date is the last calendar day of its month,
so the claimed biconditional (expire iff old and not month-end) is false
of the code: the month-end test compares against the fixed 28-day
February of `calendar.mdays`. -/
theorem c1_code_eval :
    manage_snapshot_inventory okAll ⟨2024, 3, 15⟩ [sFeb29] =
        .ok ⟨[], [sFeb29], [sFeb29], [], PyVal.none⟩ ∧
      strLe sFeb29.start_time (isoDate (subDays ⟨2024, 3, 15⟩ 7)) = true ∧
      specIsMonthEnd ⟨2024, 2, 29⟩ = true :=
  ⟨by rfl, by rfl, by rfl⟩

/-- C2 (code behaviour at the failing input): on reference date 2024-05-01
the pass expires the Feb 29 2024 snapshot (claim: month-end, keep) and
keeps the Feb 28 2024 snapshot (claim: not month-end in a leap year,
expire); February 2024 really has 29 days while `calendar.mdays` says
28.  Only the non-leap part of the claim holds: an old Feb 28 2023
snapshot is kept on 2023-03-20. -/
theorem c2_leap_year_divergence :
    manage_snapshot_inventory okAll ⟨2024, 5, 1⟩ [sFeb29b, sFeb28L] =
        .ok ⟨[sFeb28L], [sFeb29b], [sFeb29b], [], PyVal.none⟩ ∧
      daysInMonth 2024 2 = 29 ∧ mdays 2 = 28 ∧
      manage_snapshot_inventory okAll ⟨2023, 3, 20⟩ [sFeb28N] =
        .ok ⟨[sFeb28N], [], [], [], PyVal.int 0⟩ ∧
      daysInMonth 2023 2 = 28 :=
  ⟨by rfl, by rfl, by rfl, by rfl, by rfl⟩

/-- C3 (code behaviour at the failing input): on reference date 2020-03-20
the pass expires the 2020-02-29 snapshot although that date is the last
calendar day of its month, so month-end immunity does not hold in the
code. -/
theorem c3_month_end_violated :
    manage_snapshot_inventory okAll ⟨2020, 3, 20⟩ [sLeap20] =
        .ok ⟨[], [sLeap20], [sLeap20], [], PyVal.none⟩ ∧
      specIsMonthEnd ⟨2020, 2, 29⟩ = true :=
  ⟨by rfl, by rfl⟩

